import Mathlib

/-!
Verification of the core concurrency infrastructure of the `pdfan` service:
a semaphore-bounded worker pool (`src/worker.rs`), a retry-on-failure task
wrapper (`src/chrome.rs`), an event-driven network-idle detector
(`src/wait.rs`), and a process supervisor (`src/driver.rs`).

The stateful async code is shallowly embedded as explicit state-transition
systems; the pure control flow (error mapping, retry wrapper, event folds)
is embedded as Lean functions translated from the Rust source.
-/

namespace Pdfan

/-! ## WorkerPool admission model (src/worker.rs)

`WorkerPool::new(cap, workers, make_ctx)` creates `Semaphore::new(cap)` and an
unbounded multi-consumer channel.  `queue` acquires one owned permit, builds a
`Packet { task, tx, _permit }` and sends it; a worker receives the packet,
skips it if `packet.tx.is_closed()`, otherwise runs the task and sends the
result.  The `OwnedSemaphorePermit` lives inside the `Packet` and is released
exactly when the `Packet` is destroyed (after the result send, or on the
skip/drop path).  We model the counters: `avail` permits in the semaphore,
`queued` packets in the channel, `executing` packets taken by a worker and not
yet destroyed. -/

structure PoolState where
  avail : Nat
  queued : Nat
  executing : Nat
  deriving DecidableEq, Repr

/-- Packets alive = admitted and not yet destroyed (queued plus held by a
worker, i.e. executing or awaiting result delivery). -/
def PoolState.alive (s : PoolState) : Nat := s.queued + s.executing

/-- The transitions of the pool, as performed by `WorkerPool::queue` and
`spawn_worker`:
* `acquire`: `acquire_owned` succeeds (one permit available) and the packet
  carrying that permit is sent on the channel;
* `pickupRun`: a worker receives a packet whose `tx` is still open and starts
  `packet.task.process`;
* `pickupSkip`: a worker receives a packet whose `tx.is_closed()`, `continue`s,
  dropping the packet and hence releasing its permit;
* `complete`: `packet.send(result)` and the packet is destroyed, releasing its
  permit. -/
inductive PoolStep : PoolState → PoolState → Prop
  | acquire (a q e : Nat) : PoolStep ⟨a + 1, q, e⟩ ⟨a, q + 1, e⟩
  | pickupRun (a q e : Nat) : PoolStep ⟨a, q + 1, e⟩ ⟨a, q, e + 1⟩
  | pickupSkip (a q e : Nat) : PoolStep ⟨a, q + 1, e⟩ ⟨a + 1, q, e⟩
  | complete (a q e : Nat) : PoolStep ⟨a, q, e + 1⟩ ⟨a + 1, q, e⟩

/-- Initial state of a pool of capacity `cap`: `Semaphore::new(cap)`, empty
channel, no worker busy. -/
def poolInit (cap : Nat) : PoolState := ⟨cap, 0, 0⟩

/-- Reachability by any interleaving of submissions and worker actions. -/
def PoolReachable (cap : Nat) (s : PoolState) : Prop :=
  Relation.ReflTransGen PoolStep (poolInit cap) s

/-- Permit conservation: every alive packet holds exactly one permit, so the
available permits plus alive packets always total `cap`. -/
theorem pool_conservation {cap : Nat} {s : PoolState}
    (h : PoolReachable cap s) : s.avail + s.alive = cap := by
  induction h with
  | refl => simp [poolInit, PoolState.alive]
  | tail _ hstep ih =>
    cases hstep <;> simp_all [PoolState.alive] <;> omega

/-- C1: For every WorkerPool constructed with capacity `cap` and any sequence
of concurrent submissions, the number of simultaneously admitted, uncompleted
tasks (Packets alive: queued plus executing plus awaiting result delivery)
never exceeds `cap`; each alive Packet holds its admission Permit (permit
conservation `avail + alive = cap`) from admission until the Packet is
destroyed after result delivery or drop. -/
theorem pool_capacity_bound {cap : Nat} {s : PoolState}
    (h : PoolReachable cap s) :
    s.alive ≤ cap ∧ s.avail + s.alive = cap := by
  have hc := pool_conservation h
  exact ⟨by omega, hc⟩

/-- Witness for C1 at capacity 2 after an `acquire` followed by a
`pickupRun`. -/
theorem pool_capacity_bound_witness :
    PoolState.alive ⟨1, 0, 1⟩ ≤ 2 ∧
      PoolState.avail ⟨1, 0, 1⟩ + PoolState.alive ⟨1, 0, 1⟩ = 2 :=
  @pool_capacity_bound 2 ⟨1, 0, 1⟩
    (Relation.ReflTransGen.tail
      (Relation.ReflTransGen.tail Relation.ReflTransGen.refl
        (PoolStep.acquire 1 0 0))
      (PoolStep.pickupRun 1 0 0))

/-! ## Result delivery (src/worker.rs)

`WorkerPool::queue` creates a fresh `oneshot::channel()` per call and puts the
sender `tx` into the `Packet`; we identify each oneshot channel by a `chanId`
and record the freshness of `oneshot::channel()` as the hypothesis that the
channel ids of all submitted packets are pairwise distinct.  `spawn_worker`
receives packets, skips a packet whose `tx.is_closed()` (the caller's receiver
is gone) without executing it, and otherwise runs the task and sends the
result on that packet's own `tx`.  A run of the pool distributes the submitted
packets among the workers (the channel is multi-consumer: each packet is
received by exactly one worker); `closed` models `tx.is_closed()` as observed
at pickup time. -/

structure Packet (τ : Type) where
  task : τ
  chanId : Nat
  deriving DecidableEq, Repr

/-- One worker's deliveries: the `(channel, result)` sends performed by
`spawn_worker` over the packets it receives. -/
def workerRun {τ ρ : Type} (process : τ → ρ) (closed : Nat → Bool)
    (ps : List (Packet τ)) : List (Nat × ρ) :=
  ps.filterMap fun p =>
    if closed p.chanId then none else some (p.chanId, process p.task)

/-- All deliveries of a pool whose workers received the packet lists `asg`
(one list per worker, each submitted packet received by exactly one worker). -/
def poolRun {τ ρ : Type} (process : τ → ρ) (closed : Nat → Bool)
    (asg : List (List (Packet τ))) : List (Nat × ρ) :=
  (asg.map (workerRun process closed)).flatten

theorem workerRun_fst_sublist {τ ρ : Type} (process : τ → ρ)
    (closed : Nat → Bool) (ps : List (Packet τ)) :
    ((workerRun process closed ps).map Prod.fst).Sublist
      (ps.map Packet.chanId) := by
  induction ps with
  | nil => simp [workerRun]
  | cons p ps ih =>
    by_cases h : closed p.chanId
    · simpa [workerRun, h] using ih.cons p.chanId
    · simpa [workerRun, h] using ih.cons₂ p.chanId

theorem poolRun_fst_sublist {τ ρ : Type} (process : τ → ρ)
    (closed : Nat → Bool) (asg : List (List (Packet τ))) :
    ((poolRun process closed asg).map Prod.fst).Sublist
      (asg.flatten.map Packet.chanId) := by
  induction asg with
  | nil => simp [poolRun]
  | cons ps asg ih =>
    simpa [poolRun] using
      (workerRun_fst_sublist process closed ps).append ih

theorem mem_workerRun {τ ρ : Type} {process : τ → ρ} {closed : Nat → Bool}
    {ps : List (Packet τ)} {d : Nat × ρ}
    (hd : d ∈ workerRun process closed ps) :
    ∃ p ∈ ps, d.1 = p.chanId ∧ d.2 = process p.task ∧
      closed p.chanId = false := by
  obtain ⟨p, hp, hf⟩ := List.mem_filterMap.mp hd
  by_cases h : closed p.chanId
  · simp [h] at hf
  · simp [h] at hf
    exact ⟨p, hp, by simp [← hf], by simp [← hf], by simp [h]⟩

theorem workerRun_mem_of_open {τ ρ : Type} {process : τ → ρ}
    {closed : Nat → Bool} {ps : List (Packet τ)} {p : Packet τ}
    (hp : p ∈ ps) (hopen : closed p.chanId = false) :
    (p.chanId, process p.task) ∈ workerRun process closed ps :=
  List.mem_filterMap.mpr ⟨p, hp, by simp [hopen]⟩

/-- C2: For every task submitted via `queue`, at most one result is ever
delivered, and only to the caller that submitted that task: given that the
oneshot channel ids of the submitted packets are pairwise fresh, the channel
ids of all deliveries are pairwise distinct (no result delivered twice), every
delivery carries the result of the task of the packet owning that channel (no
result to a different caller), and a submitted packet's channel receives a
delivery iff its receiver was still open at pickup (exactly one result, or
none after the caller gave up). -/
theorem queue_delivers_at_most_once {τ ρ : Type} (process : τ → ρ)
    (closed : Nat → Bool) (asg : List (List (Packet τ)))
    (hfresh : (asg.flatten.map Packet.chanId).Nodup) :
    ((poolRun process closed asg).map Prod.fst).Nodup ∧
    (∀ d ∈ poolRun process closed asg,
       ∃ p ∈ asg.flatten, d.1 = p.chanId ∧ d.2 = process p.task ∧
         closed p.chanId = false) ∧
    (∀ p ∈ asg.flatten,
       p.chanId ∈ (poolRun process closed asg).map Prod.fst ↔
         closed p.chanId = false) := by
  refine ⟨(poolRun_fst_sublist process closed asg).nodup hfresh, ?_, ?_⟩
  · intro d hd
    obtain ⟨l, hl, hdl⟩ := List.mem_flatten.mp hd
    obtain ⟨ps, hps, rfl⟩ := List.mem_map.mp hl
    obtain ⟨p, hp, hprops⟩ := mem_workerRun hdl
    exact ⟨p, List.mem_flatten.mpr ⟨ps, hps, hp⟩, hprops⟩
  · intro p hp
    constructor
    · intro hmem
      obtain ⟨d, hd, hfst⟩ := List.mem_map.mp hmem
      obtain ⟨l, hl, hdl⟩ := List.mem_flatten.mp hd
      obtain ⟨ps, hps, rfl⟩ := List.mem_map.mp hl
      obtain ⟨q, _, hq1, _, hq3⟩ := mem_workerRun hdl
      rw [← hfst, hq1]
      exact hq3
    · intro hopen
      obtain ⟨ps, hps, hpps⟩ := List.mem_flatten.mp hp
      refine List.mem_map.mpr ⟨(p.chanId, process p.task), ?_, rfl⟩
      exact List.mem_flatten.mpr
        ⟨workerRun process closed ps,
         List.mem_map.mpr ⟨ps, hps, rfl⟩,
         workerRun_mem_of_open hpps hopen⟩

/-- Witness for C2: two workers, three submitted packets on fresh channels
0, 1 and 5, channel 5's receiver already closed at pickup — the delivered
channel ids are pairwise distinct. -/
theorem queue_delivers_at_most_once_witness :
    (([[⟨10, 0⟩], [⟨20, 1⟩, ⟨30, 5⟩]] :
        List (List (Packet Nat))).flatten.map Packet.chanId).Nodup ∧
    ((poolRun (fun t => t + 1) (fun c => c == 5)
        [[⟨10, 0⟩], [⟨20, 1⟩, ⟨30, 5⟩]]).map Prod.fst).Nodup :=
  ⟨by decide,
   (queue_delivers_at_most_once (fun t => t + 1) (fun c => c == 5)
     [[⟨10, 0⟩], [⟨20, 1⟩, ⟨30, 5⟩]] (by decide)).1⟩

/-! ## Retry-on-failure wrapper (src/chrome.rs)

`ChromeTask::process` runs `process_inner`; on error it calls
`ctx.recreate_page()`, and if that succeeds re-runs `process_inner` once,
returning whatever the second run yields; if the rebuild fails it returns the
original error.  `process_inner` reads and mutates the worker context, so we
embed it as a state-passing function `inner : Ctx → Ctx × Except Err A`, and
the rebuild as `recreate : Ctx → Except Err Ctx`.  The `Nat` component counts
invocations of `inner` (instrumentation for the spec's "executes twice"). -/

def chromeProcess {Ctx Err A : Type} (inner : Ctx → Ctx × Except Err A)
    (recreate : Ctx → Except Err Ctx) (c : Ctx) :
    Ctx × Except Err A × Nat :=
  match inner c with
  | (c1, .ok v) => (c1, .ok v, 1)
  | (c1, .error e) =>
    match recreate c1 with
    | .ok c2 =>
      match inner c2 with
      | (c3, r2) => (c3, r2, 2)
    | .error _ => (c1, .error e, 1)

/-- C3: For a task execution whose first attempt fails with `e`: if the
Context rebuild succeeds (yielding `c2`), the task body runs exactly twice in
total and the second attempt's outcome — success or failure — is the final
result; if the rebuild fails, the error returned is the original first-attempt
failure `e` (never the rebuild failure), with the body run only once. -/
theorem chrome_retry_semantics {Ctx Err A : Type}
    (inner : Ctx → Ctx × Except Err A) (recreate : Ctx → Except Err Ctx)
    (c c1 : Ctx) (e : Err)
    (h1 : inner c = (c1, .error e)) :
    (∀ c2, recreate c1 = .ok c2 →
        chromeProcess inner recreate c = ((inner c2).1, (inner c2).2, 2)) ∧
    (∀ e', recreate c1 = .error e' →
        chromeProcess inner recreate c = (c1, (.error e : Except Err A), 1)) := by
  constructor
  · intro c2 h2
    simp [chromeProcess, h1, h2]
  · intro e' h2
    simp [chromeProcess, h1, h2]

/-- Witness for C3: first attempt fails with error 7, rebuild succeeds, the
second attempt succeeds with value 5 — two executions, final result `ok 5`. -/
theorem chrome_retry_semantics_witness :
    chromeProcess
        (fun c : Nat => (c + 1, if c = 0 then Except.error 7 else Except.ok c))
        (fun c : Nat => if c = 1 then Except.ok 5 else Except.error 9) 0 =
      (6, Except.ok 5, 2) := by
  have h := (chrome_retry_semantics
      (fun c : Nat => (c + 1, if c = 0 then Except.error 7 else Except.ok c))
      (fun c : Nat => if c = 1 then Except.ok 5 else Except.error 9)
      0 1 7 (by simp)).1 5 (by simp)
  simpa using h

/-! ## Submission lifecycle (src/worker.rs)

`WorkerPool::queue` wraps the whole submission — permit acquisition, packet
send, result wait — in a single `tokio::time::timeout(timeout, ...)`.  When
the deadline fires, the wrapped future is dropped: any pending permit
acquisition is simply abandoned (no packet is ever built or sent), while an
already-sent packet stays in the queue with its oneshot receiver dropped.  A
worker that picks up such a packet sees `packet.tx.is_closed()` and skips it
without invoking the task.  Once a worker has started `packet.task.process`,
nothing interrupts it: the worker awaits the task to completion and only then
attempts the (possibly failing, ignored) result send.  One submission's
lifecycle is embedded as a transition system: -/

inductive SubPhase
  | waiting     -- inside acquire_owned, no permit yet
  | abandoned   -- deadline fired while waiting: the future was dropped
  | queued      -- packet built and sent on the dispatch channel
  | executing   -- a worker invoked packet.task.process
  | skipped     -- a worker saw tx.is_closed() and dropped the packet
  | done        -- process returned; result sent (or send failed silently)
  deriving DecidableEq, Repr

structure SubState where
  phase : SubPhase
  rxOpen : Bool    -- the caller's oneshot receiver is still alive
  invoked : Bool   -- packet.task.process has been invoked
  deriving DecidableEq, Repr

inductive SubEvent
  | deadline   -- the submission timeout elapses
  | acquire    -- acquire_owned returns a permit; packet built and sent
  | pickup     -- a worker receives the packet from the channel
  | finish     -- packet.task.process completes naturally
  deriving DecidableEq, Repr

def subStep (s : SubState) : SubEvent → SubState
  | .deadline =>
    { s with rxOpen := false,
             phase := if s.phase = .waiting then .abandoned else s.phase }
  | .acquire => if s.phase = .waiting then { s with phase := .queued } else s
  | .pickup =>
    if s.phase = .queued then
      if s.rxOpen then { s with phase := .executing, invoked := true }
      else { s with phase := .skipped }
    else s
  | .finish => if s.phase = .executing then { s with phase := .done } else s

/-- State of a fresh `queue` call: waiting for a permit, receiver alive,
task not invoked. -/
def subInit : SubState := ⟨.waiting, true, false⟩

def runSub (s : SubState) (es : List SubEvent) : SubState :=
  es.foldl subStep s

theorem abandoned_stays_abandoned (s : SubState)
    (hp : s.phase = .abandoned) (hi : s.invoked = false)
    (es : List SubEvent) :
    (runSub s es).phase = .abandoned ∧ (runSub s es).invoked = false := by
  induction es generalizing s with
  | nil => exact ⟨hp, hi⟩
  | cons e es ih =>
    have hstep : (subStep s e).phase = .abandoned ∧
        (subStep s e).invoked = false := by
      cases e <;> simp [subStep, hp, hi]
    exact ih _ hstep.1 hstep.2

/-- C4: a submission deadline cancels only waiting, never execution.  If the
deadline fires while still waiting for a Permit, then under every subsequent
event sequence the task is never dispatched (the phase stays `abandoned`,
never reaching `queued`/`executing`) and `process` is never invoked.  If the
deadline fires while the task is executing, the execution is unaffected (the
phase stays `executing`, the invocation record unchanged) and the task still
runs to natural completion (`finish` still transitions it to `done`). -/
theorem deadline_cancels_waiting_not_execution :
    (∀ es : List SubEvent,
        (runSub (subStep subInit .deadline) es).phase = .abandoned ∧
        (runSub (subStep subInit .deadline) es).invoked = false) ∧
    (∀ s : SubState, s.phase = .executing →
        (subStep s .deadline).phase = .executing ∧
        (subStep s .deadline).invoked = s.invoked ∧
        (subStep (subStep s .deadline) .finish).phase = .done) := by
  constructor
  · intro es
    exact abandoned_stays_abandoned _ (by simp [subStep, subInit])
      (by simp [subStep, subInit]) es
  · intro s hs
    refine ⟨by simp [subStep, hs], by simp [subStep], by simp [subStep, hs]⟩

/-- Witness for C4: after an early deadline, `acquire`/`pickup`/`finish`
leave the task uninvoked; a deadline during execution leaves the phase
`executing`. -/
theorem deadline_cancels_waiting_not_execution_witness :
    (runSub (subStep subInit .deadline)
        [SubEvent.acquire, SubEvent.pickup, SubEvent.finish]).invoked
      = false ∧
    (subStep ⟨.executing, true, true⟩ .deadline).phase = .executing :=
  ⟨(deadline_cancels_waiting_not_execution.1
      [SubEvent.acquire, SubEvent.pickup, SubEvent.finish]).2,
   (deadline_cancels_waiting_not_execution.2 ⟨.executing, true, true⟩ rfl).1⟩

/-! ## Submission errors (src/worker.rs)

The error structure of `WorkerPool::queue`, translated from its control flow.
The single `tokio::time::timeout` envelope maps an elapse — at *either*
suspension point, permit acquisition or result wait — to the one error
`wrap_err("Task timed out")`.  The inner errors, in program order:
`acquire_owned` failing (`"Pool shut down"`), the channel send failing
(`"Could not send to worker queue"`), and the oneshot receive failing
(`"Worker dropped"`). -/

inductive QueueError
  | taskTimedOut              -- wrap_err("Task timed out") around Elapsed
  | poolShutDown              -- wrap_err("Pool shut down")
  | couldNotSendToWorkerQueue -- wrap_err("Could not send to worker queue")
  | workerDropped             -- wrap_err("Worker dropped")
  deriving DecidableEq, Repr

/-- The asynchronous environment a `queue` call runs in: where (if anywhere)
the deadline elapses, and whether each awaited primitive fails. -/
structure QueueEnv (ρ : Type) where
  elapsesDuringAdmission : Bool
  semaphoreClosed : Bool
  channelClosed : Bool
  elapsesDuringResultWait : Bool
  senderDropped : Bool
  result : ρ
  deriving DecidableEq, Repr

def queue {ρ : Type} (env : QueueEnv ρ) : Except QueueError ρ :=
  if env.elapsesDuringAdmission then .error .taskTimedOut
  else if env.semaphoreClosed then .error .poolShutDown
  else if env.channelClosed then .error .couldNotSendToWorkerQueue
  else if env.elapsesDuringResultWait then .error .taskTimedOut
  else if env.senderDropped then .error .workerDropped
  else .ok env.result

/-- Counterexample to C5: the deadline elapsing before permit acquisition and
the deadline elapsing while awaiting the result produce the *identical* error
value (`taskTimedOut`, the source's single "Task timed out"), so the returned
error cannot tell the two cases apart. -/
theorem queue_timeout_counterexample :
    queue (ρ := Nat) ⟨true, false, false, false, false, 0⟩ =
      queue (ρ := Nat) ⟨false, false, false, true, false, 0⟩ ∧
    queue (ρ := Nat) ⟨true, false, false, false, false, 0⟩ =
      .error .taskTimedOut :=
  ⟨rfl, rfl⟩

/-- C5 (amended): the submission operation returns the same single timeout
error for both deadline cases — whether the deadline elapsed before a Permit
was acquired or after dispatch while awaiting the result, the caller receives
`taskTimedOut` ("Task timed out"); the two cases are not distinguishable from
the returned error. -/
theorem queue_single_timeout_error {ρ : Type} (env : QueueEnv ρ) :
    (env.elapsesDuringAdmission = true →
      queue env = .error .taskTimedOut) ∧
    (env.elapsesDuringAdmission = false → env.semaphoreClosed = false →
      env.channelClosed = false → env.elapsesDuringResultWait = true →
      queue env = .error .taskTimedOut) := by
  constructor
  · intro h
    simp [queue, h]
  · intro h1 h2 h3 h4
    simp [queue, h1, h2, h3, h4]

/-- Witness for C5 (amended) at a concrete environment for each case. -/
theorem queue_single_timeout_error_witness :
    queue (ρ := Nat) ⟨true, false, false, false, false, 3⟩ =
        .error .taskTimedOut ∧
    queue (ρ := Nat) ⟨false, false, false, true, false, 3⟩ =
        .error .taskTimedOut :=
  ⟨(queue_single_timeout_error ⟨true, false, false, false, false, 3⟩).1 rfl,
   (queue_single_timeout_error ⟨false, false, false, true, false, 3⟩).2
     rfl rfl rfl rfl⟩

/-! ## Network idle detector: event handling (src/wait.rs)

`wait_for_network_idle` merges three CDP event streams into one channel:
`EventRequestWillBeSent` is forwarded as `RequestStarted`, and both
`EventLoadingFinished` and `EventLoadingFailed` are forwarded as
`RequestFinished`.  The loop state is `pending_requests : HashSet<String>`
(embedded as a `Finset String`) together with
`idle_since : Option<Instant>` (instants as milliseconds). -/

inductive NetworkEvent
  | RequestStarted (id : String)
  | RequestFinished (id : String)
  deriving DecidableEq, Repr

structure IdleState where
  pending : Finset String
  idleSince : Option Nat
  deriving DecidableEq

/-- The `rx.recv()` arm of the select: a started event inserts the request id
and clears `idle_since`; a finished (or failed) event removes the id. -/
def applyEvent (s : IdleState) : NetworkEvent → IdleState
  | .RequestStarted id => { pending := insert id s.pending, idleSince := none }
  | .RequestFinished id => { s with pending := s.pending.erase id }

def applyEvents (s : IdleState) (es : List NetworkEvent) : IdleState :=
  es.foldl applyEvent s

/-- The last event of `es` touching `id`: `some true` if it was a start,
`some false` if a finish/fail, `none` if no event of `es` touches `id`. -/
def lastTouch (es : List NetworkEvent) (id : String) : Option Bool :=
  es.foldl (fun acc e =>
    match e with
    | .RequestStarted j => if j = id then some true else acc
    | .RequestFinished j => if j = id then some false else acc) none

theorem mem_applyEvents_pending (s : IdleState) (es : List NetworkEvent)
    (id : String) :
    (id ∈ (applyEvents s es).pending ↔
      lastTouch es id = some true ∨
        (lastTouch es id = none ∧ id ∈ s.pending)) := by
  induction es using List.reverseRecOn with
  | nil => simp [applyEvents, lastTouch]
  | append_singleton tl e ih =>
    cases e with
    | RequestStarted j =>
      by_cases hj : j = id
      · subst hj
        simp [applyEvents, lastTouch, List.foldl_append, applyEvent]
      · have hj' : ¬id = j := fun h => hj h.symm
        simpa [applyEvents, lastTouch, List.foldl_append, applyEvent, hj,
          hj'] using ih
    | RequestFinished j =>
      by_cases hj : j = id
      · subst hj
        simp [applyEvents, lastTouch, List.foldl_append, applyEvent]
      · have hj' : ¬id = j := fun h => hj h.symm
        simpa [applyEvents, lastTouch, List.foldl_append, applyEvent, hj,
          hj', Finset.mem_erase] using ih

/-- C6: a started event inserts the request id into the pending set and
clears any recorded idle-start timestamp; a finished or failed event removes
the id, removal of an absent id being a no-op (the state is unchanged, so the
set's size never goes negative); and after any event sequence, membership
reflects exactly the ids whose last event was a start — only
currently-unfinished requests. -/
theorem idle_event_fold_correct (s : IdleState) (id : String)
    (es : List NetworkEvent) :
    (applyEvent s (.RequestStarted id)).pending = insert id s.pending ∧
    (applyEvent s (.RequestStarted id)).idleSince = none ∧
    (id ∉ s.pending → applyEvent s (.RequestFinished id) = s) ∧
    (id ∈ (applyEvents s es).pending ↔
      lastTouch es id = some true ∨
        (lastTouch es id = none ∧ id ∈ s.pending)) := by
  refine ⟨rfl, rfl, ?_, mem_applyEvents_pending s es id⟩
  intro h
  simp [applyEvent, Finset.erase_eq_of_not_mem h]

/-- Witness for C6: removing `"a"` from an empty pending set leaves the state
untouched, and after a lone start of `"a"` the id is pending. -/
theorem idle_event_fold_correct_witness :
    applyEvent ⟨∅, some 3⟩ (.RequestFinished "a") = ⟨∅, some 3⟩ ∧
    ("a" ∈ (applyEvents ⟨∅, some 3⟩ [.RequestStarted "a"]).pending ↔
      lastTouch [.RequestStarted "a"] "a" = some true ∨
        (lastTouch [.RequestStarted "a"] "a" = none ∧
          "a" ∈ (∅ : Finset String))) :=
  ⟨(idle_event_fold_correct ⟨∅, some 3⟩ "a" []).2.2.1 (by simp),
   (idle_event_fold_correct ⟨∅, some 3⟩ "a" [.RequestStarted "a"]).2.2.2⟩

/-! ## Network idle detector: the polling loop (src/wait.rs)

The loop races `rx.recv()` against a fresh 100ms sleep.  An event updates the
state as above; `rx.recv()` returning `None` (all three collector tasks ended,
closing the channel) breaks the loop; a tick compares
`pending_requests.len()` with `max_connections` (0 for `Idle0`, 2 for
`Idle2`): below or at the threshold it records `idle_since` if absent, or
breaks once at least `IDLE_TIMEOUT = 500`ms have elapsed since it; above the
threshold it clears `idle_since`.  After any break the function returns
`Ok(())`.  Time is in milliseconds; each tick advances the clock by the
100ms sleep, and event arms are treated as instantaneous. -/

inductive NetworkIdleKind
  | Idle0
  | Idle2
  deriving DecidableEq, Repr

def maxConnections : NetworkIdleKind → Nat
  | .Idle0 => 0
  | .Idle2 => 2

structure LoopState where
  st : IdleState
  now : Nat
  deriving DecidableEq

inductive LoopInput
  | ev (e : NetworkEvent)  -- rx.recv() yields Some(event)
  | closed                 -- rx.recv() yields None: the channel is closed
  | tick                   -- the 100ms sleep wins the select
  deriving DecidableEq, Repr

/-- One iteration of the select loop; `none` means the loop `break`s. -/
def loopStep (kind : NetworkIdleKind) (s : LoopState) :
    LoopInput → Option LoopState
  | .ev e => some { s with st := applyEvent s.st e }
  | .closed => none
  | .tick =>
    if s.st.pending.card ≤ maxConnections kind then
      match s.st.idleSince with
      | some since =>
        if 500 ≤ s.now + 100 - since then none
        else some { s with now := s.now + 100 }
      | none =>
        some { st := { s.st with idleSince := some (s.now + 100) },
               now := s.now + 100 }
    else
      some { st := { s.st with idleSince := none }, now := s.now + 100 }

inductive LoopOutcome
  | returnedOk               -- broke out; wait_for_network_idle returns Ok(())
  | running (s : LoopState)  -- inputs exhausted with the loop still live
  deriving DecidableEq

def runLoop (kind : NetworkIdleKind) (s : LoopState) :
    List LoopInput → LoopOutcome
  | [] => .running s
  | i :: is =>
    match loopStep kind s i with
    | none => .returnedOk
    | some s' => runLoop kind s' is

theorem runLoop_busy_never_returns (kind : NetworkIdleKind) (n : Nat)
    (s : LoopState) (h : maxConnections kind < s.st.pending.card) :
    runLoop kind s (List.replicate n .tick) ≠ .returnedOk := by
  induction n generalizing s with
  | zero => simp [runLoop]
  | succ n ih =>
    have hstep : loopStep kind s .tick =
        some ⟨⟨s.st.pending, none⟩, s.now + 100⟩ := by
      simp [loopStep, Nat.not_le.mpr h]
    rw [List.replicate_succ, runLoop, hstep]
    exact ih _ (by simpa using h)

/-- C7: on a stream holding exactly one operation in flight forever, the
detector with policy `Idle2` terminates once 500ms of continuous stability
have elapsed (at the sixth tick, 500ms after the idle timestamp was recorded
at the first tick, since 1 ≤ 2) while with policy `Idle0` it never
terminates; in general a tick observing a pending count above the threshold
clears the recorded idle-start timestamp, and the loop declares idle at a
tick only when the count is at or below the threshold and a recorded
idle-start timestamp lies at least the full 500ms stability window in the
past. -/
theorem idle_policy_window :
    runLoop .Idle2 ⟨⟨∅, none⟩, 0⟩
        (LoopInput.ev (.RequestStarted "a") :: List.replicate 6 .tick) =
      .returnedOk ∧
    runLoop .Idle2 ⟨⟨∅, none⟩, 0⟩
        (LoopInput.ev (.RequestStarted "a") :: List.replicate 5 .tick) =
      .running ⟨⟨{"a"}, some 100⟩, 500⟩ ∧
    (∀ n : Nat,
      runLoop .Idle0 ⟨⟨∅, none⟩, 0⟩
          (LoopInput.ev (.RequestStarted "a") :: List.replicate n .tick) ≠
        .returnedOk) ∧
    (∀ (kind : NetworkIdleKind) (s : LoopState),
      maxConnections kind < s.st.pending.card →
        loopStep kind s .tick =
          some ⟨⟨s.st.pending, none⟩, s.now + 100⟩) ∧
    (∀ (kind : NetworkIdleKind) (s : LoopState),
      loopStep kind s .tick = none →
        s.st.pending.card ≤ maxConnections kind ∧
          ∃ since, s.st.idleSince = some since ∧
            500 ≤ s.now + 100 - since) := by
  refine ⟨by decide, by decide, ?_, ?_, ?_⟩
  · intro n
    have hstep : loopStep .Idle0 ⟨⟨∅, none⟩, 0⟩
        (.ev (.RequestStarted "a")) =
        some ⟨⟨{"a"}, none⟩, 0⟩ := by decide
    rw [runLoop, hstep]
    exact runLoop_busy_never_returns .Idle0 n _ (by decide)
  · intro kind s h
    simp [loopStep, Nat.not_le.mpr h]
  · intro kind s h
    by_cases hc : s.st.pending.card ≤ maxConnections kind
    · cases hs : s.st.idleSince with
      | none => simp [loopStep, hc, hs] at h
      | some since =>
        by_cases ht : 500 ≤ s.now + 100 - since
        · exact ⟨hc, since, rfl, ht⟩
        · simp [loopStep, hc, hs, ht] at h
    · simp [loopStep, hc] at h

/-- Witness for C7: a busy tick (1 pending, threshold 0) clears the idle
timestamp, and a break requires a 500ms-old timestamp. -/
theorem idle_policy_window_witness :
    loopStep .Idle0 ⟨⟨{"a"}, some 100⟩, 300⟩ .tick =
        some ⟨⟨{"a"}, none⟩, 400⟩ ∧
    (⟨⟨∅, some 0⟩, 500⟩ : LoopState).st.pending.card ≤
        maxConnections .Idle0 ∧
      ∃ since, (⟨⟨∅, some 0⟩, 500⟩ : LoopState).st.idleSince = some since ∧
        500 ≤ 500 + 100 - since :=
  ⟨idle_policy_window.2.2.2.1 .Idle0 ⟨⟨{"a"}, some 100⟩, 300⟩ (by decide),
   idle_policy_window.2.2.2.2 .Idle0 ⟨⟨∅, some 0⟩, 500⟩ (by decide)⟩

/-- C10: if the merged event channel closes (all three listener streams have
terminated), the loop breaks and `wait_for_network_idle` returns `Ok` at
once, from any detector state — including one whose pending count exceeds
the policy threshold with no stability window ever satisfied — and the
outcome equals the outcome of a genuine idle detection, so the caller cannot
distinguish the two. -/
theorem merged_channel_closed_returns_ok (kind : NetworkIdleKind)
    (s : LoopState) (rest : List LoopInput) :
    runLoop kind s (LoopInput.closed :: rest) = .returnedOk ∧
    runLoop kind s (LoopInput.closed :: rest) =
      runLoop .Idle0 ⟨⟨∅, some 0⟩, 500⟩ [.tick] := by
  have h2 : runLoop .Idle0 ⟨⟨∅, some 0⟩, 500⟩ [.tick] = .returnedOk := by
    decide
  exact ⟨rfl, by rw [h2]; rfl⟩

/-! ## Supervisor (src/driver.rs)

`Supervisor::run(task)` subscribes a broadcast receiver (before spawning, so
every loop started before `stop()` holds a subscription that will receive the
interrupt) and spawns a control loop.  The loop first attempts a launch
(`task.run().await.ok()`, failure swallowed into `None`), then repeatedly
`select!`s between:
* `rx.recv()` yielding `Interrupt`: stop the live process if any, `break`
  (the loop ends — terminal);
* the wait arm: `p.wait()` if a process is live (returns when it exits), or
  `sleep(1s)` if none; on completion, `proc = task.run().await.ok()` — an
  immediate relaunch attempt whose failure is again swallowed.

`Supervisor::stop` sends `Interrupt` on the broadcast channel and then
`join_all`s every loop handle, returning only once all loops have finished.
One control loop is embedded as a transition system over: -/

structure SLoop where
  proc : Bool      -- a live process handle is held (`proc.is_some()`)
  pending : Bool   -- an Interrupt sits in this loop's broadcast receiver
  finished : Bool  -- the loop has exited (its JoinHandle completed)
  time : Nat       -- milliseconds
  deriving DecidableEq, Repr

inductive LaunchOutcome
  | ok    -- task.run() returned Ok(process)
  | fail  -- task.run() returned Err — swallowed by `.ok()` into None
  deriving DecidableEq, Repr

inductive SEvent
  | broadcast  -- Supervisor::stop sends Interrupt on the channel
  | recvInterrupt  -- the select's interrupt arm fires
  | procExit (next : LaunchOutcome) (dt : Nat)
      -- p.wait() returns after dt ms; immediate relaunch attempt
  | backoff (next : LaunchOutcome)
      -- no process: sleep(1s) completes, then a relaunch attempt
  deriving DecidableEq, Repr

def sstep (s : SLoop) : SEvent → SLoop
  | .broadcast => if s.finished then s else { s with pending := true }
  | .recvInterrupt =>
    if s.finished then s
    else if s.pending then
      { s with proc := false, pending := false, finished := true }
    else s
  | .procExit next dt =>
    if s.finished then s
    else if s.proc then { s with proc := next == .ok, time := s.time + dt }
    else s
  | .backoff next =>
    if s.finished then s
    else if s.proc then s
    else { s with proc := next == .ok, time := s.time + 1000 }

theorem sstep_of_finished (s : SLoop) (e : SEvent)
    (h : s.finished = true) : sstep s e = s := by
  cases e <;> simp [sstep, h]

/-- Any interleaving of broadcasts, interrupt deliveries, process exits and
backoff relaunches. -/
def SReachable (init s : SLoop) : Prop :=
  Relation.ReflTransGen (fun a b => ∃ e, sstep a e = b) init s

theorem sreach_finished_no_proc {init s : SLoop}
    (hinit : init.finished = false) (h : SReachable init s)
    (hfin : s.finished = true) : s.proc = false := by
  induction h with
  | refl => rw [hinit] at hfin; cases hfin
  | tail hab hstep ih =>
    obtain ⟨e, he⟩ := hstep
    rename_i b c
    by_cases hb : b.finished = true
    · rw [sstep_of_finished b e hb] at he
      exact he ▸ ih (he ▸ hfin)
    · rw [Bool.not_eq_true] at hb
      cases e with
      | broadcast =>
        rw [← he] at hfin
        simp [sstep, hb] at hfin
      | recvInterrupt =>
        by_cases hp : b.pending = true
        · rw [← he]
          simp [sstep, hb, hp]
        · rw [Bool.not_eq_true] at hp
          rw [← he] at hfin
          simp [sstep, hb, hp] at hfin
      | procExit next dt =>
        rw [← he] at hfin
        by_cases hq : b.proc = true <;> simp [sstep, hb, hq] at hfin
      | backoff next =>
        rw [← he] at hfin
        by_cases hq : b.proc = true <;> simp [sstep, hb, hq] at hfin

theorem forall2_mem_right {α β : Type} {R : α → β → Prop}
    {as : List α} {bs : List β} (h : List.Forall₂ R as bs) :
    ∀ b ∈ bs, ∃ a ∈ as, R a b := by
  induction h with
  | nil => intro b hb; cases hb
  | cons hr _ ih =>
    intro b hb
    rcases List.mem_cons.mp hb with rfl | hb
    · exact ⟨_, List.mem_cons_self _ _, hr⟩
    · obtain ⟨a, ha, hab⟩ := ih b hb
      exact ⟨a, List.mem_cons_of_mem _ ha, hab⟩

/-- C8: after `stop()` returns — the interrupt has been broadcast and
`join_all` has seen every managed loop finish — no loop (started before
`stop()`, i.e. from an unfinished initial state) has a live process, and this
is permanent: no event whatsoever (in particular no exit/backoff relaunch)
changes a finished loop's state again. -/
theorem supervisor_stop_terminal (inits finals : List SLoop)
    (hinit : ∀ l ∈ inits, l.finished = false)
    (hreach : List.Forall₂ SReachable inits finals)
    (hstop : ∀ l ∈ finals, l.finished = true) :
    ∀ l ∈ finals, l.proc = false ∧ ∀ e, sstep l e = l := by
  intro l hl
  obtain ⟨i, hi, hri⟩ := forall2_mem_right hreach l hl
  exact ⟨sreach_finished_no_proc (hinit i hi) hri (hstop l hl),
    fun e => sstep_of_finished l e (hstop l hl)⟩

/-- Witness for C8: one loop, launched with a live process, receiving the
broadcast and then the interrupt. -/
theorem supervisor_stop_terminal_witness :
    SLoop.proc ⟨false, false, true, 0⟩ = false ∧
      ∀ e, sstep ⟨false, false, true, 0⟩ e = ⟨false, false, true, 0⟩ :=
  supervisor_stop_terminal [⟨true, false, false, 0⟩]
    [⟨false, false, true, 0⟩]
    (by intro l hl; simp at hl; rw [hl])
    (List.forall₂_cons.mpr
      ⟨Relation.ReflTransGen.tail
        (Relation.ReflTransGen.tail Relation.ReflTransGen.refl
          (⟨SEvent.broadcast, by decide⟩ :
            ∃ e, sstep ⟨true, false, false, 0⟩ e = ⟨true, true, false, 0⟩))
        (⟨SEvent.recvInterrupt, by decide⟩ :
          ∃ e, sstep ⟨true, true, false, 0⟩ e = ⟨false, false, true, 0⟩),
       List.Forall₂.nil⟩)
    (by intro l hl; simp at hl; rw [hl])
    ⟨false, false, true, 0⟩ (by simp)

/-- C9: while a loop is live (not finished) and no interrupt is pending, a
process exit triggers an immediate relaunch attempt — the new state holds a
process exactly when the launch succeeded, time advancing only by the run
duration; launch failure is swallowed (the step produces only a state, never
an error, and the loop does not finish); and with no process held, the loop
waits exactly the fixed 1000ms backoff before the next relaunch attempt. -/
theorem supervisor_relaunch_policy (s : SLoop) (next : LaunchOutcome)
    (dt : Nat) (hrun : s.finished = false) (_hnp : s.pending = false) :
    (s.proc = true →
      sstep s (.procExit next dt) =
        { s with proc := next == .ok, time := s.time + dt }) ∧
    (s.proc = false →
      sstep s (.backoff next) =
        { s with proc := next == .ok, time := s.time + 1000 }) ∧
    (sstep s (.procExit next dt)).finished = false ∧
    (sstep s (.backoff next)).finished = false := by
  refine ⟨fun hp => by simp [sstep, hrun, hp], fun hp => by
      simp [sstep, hrun, hp], ?_, ?_⟩ <;>
    by_cases hp : s.proc = true <;> simp [sstep, hrun, hp]

/-- Witness for C9: a live loop whose process exits after 50ms and whose
relaunch fails ends up with no process, not finished, at the same clock. -/
theorem supervisor_relaunch_policy_witness :
    sstep ⟨true, false, false, 0⟩ (.procExit .fail 50) =
      ⟨false, false, false, 50⟩ :=
  (supervisor_relaunch_policy ⟨true, false, false, 0⟩ .fail 50 rfl rfl).1 rfl

end Pdfan
